import Mathlib

/-!
Verification development for the HR-policy RAG pipeline (`rag_pipeline.py`).

The Python source is shallowly embedded below.  Strings are Lean `String`s
(sequences of characters, matching Python's code-point view), the regular
expression searches of the source are embedded as hand-rolled executable
scanners over `List Char` implementing exactly the backtracking behaviour of
the concrete patterns appearing in the source, and the standard-library
helpers the source calls (`datetime.strptime`, `datetime.fromisoformat`,
`str.strip`, `list.sort`) are embedded as executable model functions that are
documented where they are defined.  Fallible Python code (exceptions such as
`KeyError`/`IndexError`) is embedded with `Option`.
-/

namespace RagPipeline

/-! ## Character classes

These model the ASCII behaviour of Python's `str.strip` whitespace set, the
regex classes `\s`, `\d`, `\w`, `[A-Za-z]`, and `[-_]` used in the source.
-/

/-- Whitespace characters stripped by Python's `str.strip()` and matched by
the regex class `\s` (ASCII range). -/
def pyIsSpace (c : Char) : Bool :=
  c = ' ' || c = '\t' || c = '\n' || c = '\r' || c = '\x0b' || c = '\x0c'

/-- ASCII letter, the regex class `[A-Za-z]`. -/
def isAsciiLetter (c : Char) : Bool :=
  ('A' ≤ c && c ≤ 'Z') || ('a' ≤ c && c ≤ 'z')

/-- Word character, the regex class `\w` (ASCII range), used by `\b`. -/
def isWordChar (c : Char) : Bool :=
  isAsciiLetter c || c.isDigit || c = '_'

/-- Numeric value of a decimal digit character. -/
def dv (c : Char) : Nat := c.toNat - 48

/-- Python `str.strip()` on a character list: drop leading and trailing
whitespace. -/
def pyStrip (l : List Char) : List Char :=
  ((l.dropWhile pyIsSpace).reverse.dropWhile pyIsSpace).reverse

/-! ## Datetime model

Python `datetime` values relevant to the pipeline (microseconds do not occur:
every date built by the source has zero microseconds, and the `fromisoformat`
model below only accepts whole seconds). -/

/-- Model of a Python `datetime.datetime` value (microseconds omitted). -/
structure DateTime where
  year : Nat
  month : Nat
  day : Nat
  hour : Nat
  minute : Nat
  second : Nat
deriving DecidableEq, Repr

/-- Injective monotone encoding of a datetime; for in-range components
(`month ≤ 12`, `day ≤ 31`, `hour < 24`, `minute < 60`, `second < 60`) the
`Nat` order of keys is exactly Python's lexicographic `datetime` order. -/
def DateTime.key (d : DateTime) : Nat :=
  ((((d.year * 13 + d.month) * 32 + d.day) * 25 + d.hour) * 61 + d.minute) * 61 + d.second

/-- Gregorian leap year, as used by Python's `datetime` validation. -/
def isLeapYear (y : Nat) : Bool :=
  y % 4 = 0 && (y % 100 ≠ 0 || y % 400 = 0)

/-- Number of days of a month, as used by Python's `datetime` validation. -/
def daysInMonth (y m : Nat) : Nat :=
  if m = 2 then (if isLeapYear y then 29 else 28)
  else if m = 4 || m = 6 || m = 9 || m = 11 then 30 else 31

/-- Model of the `datetime.datetime(y, m, d)` constructor: `some` exactly when
the constructor does not raise `ValueError`. -/
def mkDate (y m d : Nat) : Option DateTime :=
  if 1 ≤ y && y ≤ 9999 && 1 ≤ m && m ≤ 12 && 1 ≤ d && d ≤ daysInMonth y m then
    some ⟨y, m, d, 0, 0, 0⟩
  else none

/-! ## Generic scanning helpers -/

/-- Case-sensitive literal prefix test (`pat` is a prefix of `l`). -/
def startsWithLit : List Char → List Char → Bool
  | [], _ => true
  | _ :: _, [] => false
  | p :: ps, c :: cs => p = c && startsWithLit ps cs

/-- Whether `pat` occurs (case-sensitively) as a contiguous substring of `l`;
this is Python's `pat in l`. -/
def occursIn (pat : List Char) : List Char → Bool
  | [] => startsWithLit pat []
  | c :: cs => startsWithLit pat (c :: cs) || occursIn pat cs

/-- Case-insensitive literal match: consume `pat` (compared through
`Char.toLower`) from the front of the input, returning the rest. -/
def stripPrefixCI : List Char → List Char → Option (List Char)
  | [], cs => some cs
  | _ :: _, [] => none
  | p :: ps, c :: cs => if p.toLower = c.toLower then stripPrefixCI ps cs else none

/-- Model of `re.search`: try the position matcher `m` at every start
position from left to right and return the first success (the patterns
embedded here cannot match the empty string, so the end position is
irrelevant). -/
def searchWith (m : List Char → Option α) : List Char → Option α
  | [] => none
  | c :: cs =>
    match m (c :: cs) with
    | some r => some r
    | none => searchWith m cs

/-- First success of `f` over a list of alternatives, in order (regex
alternation / ordered fallback chains). -/
def firstSome (l : List α) (f : α → Option β) : Option β :=
  l.findSome? f

/-! ## Month name tables (English locale, as in CPython's `_strptime`) -/

/-- Abbreviated month names for `%b`, also the `month_map` of
`extract_date_from_filename` pattern 3. -/
def monthAbbrevList : List (List Char × Nat) :=
  [("jan".data, 1), ("feb".data, 2), ("mar".data, 3), ("apr".data, 4),
   ("may".data, 5), ("jun".data, 6), ("jul".data, 7), ("aug".data, 8),
   ("sep".data, 9), ("oct".data, 10), ("nov".data, 11), ("dec".data, 12)]

/-- Full month names for `%B`. -/
def monthFullList : List (List Char × Nat) :=
  [("january".data, 1), ("february".data, 2), ("march".data, 3),
   ("april".data, 4), ("may".data, 5), ("june".data, 6), ("july".data, 7),
   ("august".data, 8), ("september".data, 9), ("october".data, 10),
   ("november".data, 11), ("december".data, 12)]

/-- Match one month name from `names` case-insensitively at the front of the
input (no month name of either table is a proper prefix of another in the
same table, so the first match is the only one). -/
def matchMonth (names : List (List Char × Nat)) (cs : List Char) :
    Option (Nat × List Char) :=
  firstSome names fun p => (stripPrefixCI p.1 cs).map fun r => (p.2, r)

/-! ## Model of `datetime.strptime` for the formats used by the source

CPython compiles a format to a regex (whitespace in the format becomes `\s+`,
`%d` becomes `3[01]|[12]\d|0[1-9]|[1-9]`, `%Y` becomes `\d\d\d\d`, `%b`/`%B`
become the alternation of the month names), matches it case-insensitively
against the whole input string (anchored at the start, and failing if any
input remains), and then validates the calendar date through the `datetime`
constructor. -/

/-- Consume one or more whitespace characters (`\s+` of the compiled
format). -/
def wsPlus (cs : List Char) : Option (List Char) :=
  let r := cs.dropWhile pyIsSpace
  if r.length = cs.length then none else some r

/-- Day candidates of the `%d` regex `3[01]|[12]\d|0[1-9]|[1-9]`, in the
regex's alternation order: any two-digit value 01–31 first, then a single
digit 1–9. -/
def dayCandidates : List Char → List (Nat × List Char)
  | a :: b :: rest =>
    (if a.isDigit && b.isDigit && 1 ≤ 10 * dv a + dv b && 10 * dv a + dv b ≤ 31 then
      [(10 * dv a + dv b, rest)] else [])
    ++ (if a.isDigit && 1 ≤ dv a then [(dv a, b :: rest)] else [])
  | [a] => if a.isDigit && 1 ≤ dv a then [(dv a, [])] else []
  | [] => []

/-- Consume exactly the four digits of `%Y` and require the end of the input
(every format used by the source ends in `%Y`). -/
def yearAtEnd (cs : List Char) : Option Nat :=
  match cs with
  | [a, b, c, d] =>
    if a.isDigit && b.isDigit && c.isDigit && d.isDigit then
      some (1000 * dv a + 100 * dv b + 10 * dv c + dv d)
    else none
  | _ => none

/-- Model of `datetime.strptime(s, "%b %d, %Y")` (`comma = true`) and of
`datetime.strptime(s, "%b %d %Y")` / `"%B %d %Y"` (`comma = false`),
with the month table passed in. -/
def strptimeMDY (names : List (List Char × Nat)) (comma : Bool)
    (cs : List Char) : Option DateTime :=
  (matchMonth names cs).bind fun (m, r1) =>
  (wsPlus r1).bind fun r2 =>
  firstSome (dayCandidates r2) fun (d, r3) =>
    (if comma then
      match r3 with
      | ',' :: r4 => some r4
      | _ => none
     else some r3).bind fun r4 =>
    (wsPlus r4).bind fun r5 =>
    (yearAtEnd r5).bind fun y =>
    mkDate y m d

/-- Model of `datetime.strptime(s, "%B %Y")` / `"%b %Y"`. -/
def strptimeMY (names : List (List Char × Nat)) (cs : List Char) :
    Option DateTime :=
  (matchMonth names cs).bind fun (m, r1) =>
  (wsPlus r1).bind fun r2 =>
  (yearAtEnd r2).bind fun y =>
  mkDate y m 1

/-! ## `extract_date_from_filename` -/

/-- Pattern 1 of `extract_date_from_filename`: the leftmost match of
`(\d{4})`, i.e. the leftmost run of four consecutive digits. -/
def search4Digits : List Char → Option Nat
  | a :: b :: c :: d :: rest =>
    if a.isDigit && b.isDigit && c.isDigit && d.isDigit then
      some (1000 * dv a + 100 * dv b + 10 * dv c + dv d)
    else search4Digits (b :: c :: d :: rest)
  | _ => none

/-- Separator class `[-_]` of the filename patterns. -/
def isSep (c : Char) : Bool := c = '-' || c = '_'

/-- Position matcher for pattern 2 of `extract_date_from_filename`,
`(\d{4})[-_](\d{2})[-_](\d{2})`. -/
def matchFullDateAt (cs : List Char) : Option (Nat × Nat × Nat) :=
  match cs with
  | y1 :: y2 :: y3 :: y4 :: s1 :: m1 :: m2 :: s2 :: d1 :: d2 :: _ =>
    if y1.isDigit && y2.isDigit && y3.isDigit && y4.isDigit && isSep s1 &&
       m1.isDigit && m2.isDigit && isSep s2 && d1.isDigit && d2.isDigit then
      some (1000 * dv y1 + 100 * dv y2 + 10 * dv y3 + dv y4,
            10 * dv m1 + dv m2, 10 * dv d1 + dv d2)
    else none
  | _ => none

/-- Position matcher for pattern 3 of `extract_date_from_filename`,
`([A-Za-z]{3,9})[-_](\d{4})` applied to the lowered filename: a maximal
letter run of length 3 to 9 followed by a separator and four digits (a
longer run cannot match at this position, because every shorter greedy
attempt leaves a letter where the separator must be).  Returns the letter
run and the year. -/
def matchMonthYearAt (cs : List Char) : Option (List Char × Nat) :=
  let ls := cs.takeWhile isAsciiLetter
  let rest := cs.dropWhile isAsciiLetter
  if 3 ≤ ls.length && ls.length ≤ 9 then
    match rest with
    | s :: a :: b :: c :: d :: _ =>
      if isSep s && a.isDigit && b.isDigit && c.isDigit && d.isDigit then
        some (ls, 1000 * dv a + 100 * dv b + 10 * dv c + dv d)
      else none
    | _ => none
  else none

/-- Embedding of `extract_date_from_filename` (source lines 40–84).  Pattern 1
considers only the leftmost four-digit run; if its value is outside
`[2000, 2099]` the function moves on to pattern 2 without looking for a later
run.  Pattern 2 considers only the leftmost full-date match; an invalid
calendar date falls through to pattern 3.  Pattern 3 runs on the lowered
filename and resolves the month from the first three letters of the run. -/
def extract_date_from_filename (filename : String) : Option DateTime :=
  let cs := filename.data
  let p3 : Option DateTime :=
    match searchWith matchMonthYearAt (cs.map Char.toLower) with
    | some (ls, y) =>
      match firstSome monthAbbrevList
          (fun p => if p.1 = ls.take 3 then some p.2 else none) with
      | some m => if 2000 ≤ y && y ≤ 2099 then some ⟨y, m, 1, 0, 0, 0⟩ else none
      | none => none
    | none => none
  let p2 : Option DateTime :=
    match searchWith matchFullDateAt cs with
    | some (y, m, d) =>
      match mkDate y m d with
      | some dt => some dt
      | none => p3
    | none => p3
  match search4Digits cs with
  | some y => if 2000 ≤ y && y ≤ 2099 then some ⟨y, 1, 1, 0, 0, 0⟩ else p2
  | none => p2

/-! ## `extract_date_from_content`

Each regex of the source is embedded as a position matcher returning the
capture group (the matched characters), combined with `searchWith` for
`re.search`'s leftmost-match semantics.  The only backtracking points of the
concrete patterns are `\d{1,2}` before a literal comma (pattern 1/2) and the
lazy day `\d{1,2}?,?` (pattern 4); every other quantifier is followed by a
disjoint character class, so maximal munch is exact. -/

/-- Split off a whitespace run (possibly empty): the characters matched by a
greedy `\s*`/`\s+` and the rest. -/
def spanWs (cs : List Char) : List Char × List Char :=
  (cs.takeWhile pyIsSpace, cs.dropWhile pyIsSpace)

/-- Greedy `\d{1,2}` immediately followed by a literal `,`: two digits are
preferred, backtracking to one.  Returns the matched characters (comma
included) and the rest. -/
def digitsComma : List Char → Option (List Char × List Char)
  | a :: b :: c :: rest =>
    if a.isDigit && b.isDigit && c = ',' then some ([a, b, ','], rest)
    else if a.isDigit && b = ',' then some ([a, ','], c :: rest)
    else none
  | [a, b] => if a.isDigit && b = ',' then some ([a, ','], [])
    else none
  | _ => none

/-- Matcher for the capture `([A-Za-z]+\s+\d{1,2},\s+\d{4})` of content
patterns 1 and 2; returns the captured characters and the rest. -/
def captureMDY (cs : List Char) : Option (List Char × List Char) :=
  let ls := cs.takeWhile isAsciiLetter
  let r1 := cs.dropWhile isAsciiLetter
  if ls = [] then none else
  let (ws1, r2) := spanWs r1
  if ws1 = [] then none else
  (digitsComma r2).bind fun (dp, r3) =>
  let (ws2, r4) := spanWs r3
  if ws2 = [] then none else
  match r4 with
  | a :: b :: c :: d :: rest =>
    if a.isDigit && b.isDigit && c.isDigit && d.isDigit then
      some (ls ++ ws1 ++ dp ++ ws2 ++ [a, b, c, d], rest)
    else none
  | _ => none

/-- Matcher for the capture `([A-Za-z]+\s+\d{4})` of content pattern 3. -/
def captureMY (cs : List Char) : Option (List Char) :=
  let ls := cs.takeWhile isAsciiLetter
  let r1 := cs.dropWhile isAsciiLetter
  if ls = [] then none else
  let (ws1, r2) := spanWs r1
  if ws1 = [] then none else
  match r2 with
  | a :: b :: c :: d :: _ =>
    if a.isDigit && b.isDigit && c.isDigit && d.isDigit then
      some (ls ++ ws1 ++ [a, b, c, d])
    else none
  | _ => none

/-- Assignments of the lazy day `\d{1,2}?` and greedy optional comma `,?` of
content pattern 4, in backtracking order: one digit with comma, one digit
without, two digits with comma, two digits without. -/
def p4DayCands : List Char → List (List Char × List Char)
  | a :: rest =>
    if a.isDigit then
      (match rest with
       | ',' :: r2 => [([a, ','], r2)]
       | _ => [])
      ++ [([a], rest)]
      ++ (match rest with
          | b :: r2 =>
            if b.isDigit then
              (match r2 with
               | ',' :: r3 => [([a, b, ','], r3)]
               | _ => [])
              ++ [([a, b], r2)]
            else []
          | [] => [])
    else []
  | [] => []

/-- Matcher for the capture `([A-Za-z]+\s+\d{1,2}?,?\s+\d{4})` of content
pattern 4. -/
def captureP4 (cs : List Char) : Option (List Char) :=
  let ls := cs.takeWhile isAsciiLetter
  let r1 := cs.dropWhile isAsciiLetter
  if ls = [] then none else
  let (ws1, r2) := spanWs r1
  if ws1 = [] then none else
  firstSome (p4DayCands r2) fun (dp, r3) =>
    let (ws2, r4) := spanWs r3
    if ws2 = [] then none else
    match r4 with
    | a :: b :: c :: d :: _ =>
      if a.isDigit && b.isDigit && c.isDigit && d.isDigit then
        some (ls ++ ws1 ++ dp ++ ws2 ++ [a, b, c, d])
      else none
    | _ => none

/-- Position matcher for content pattern 1,
`Effective Date:\s*([A-Za-z]+\s+\d{1,2},\s+\d{4})` (case-insensitive). -/
def matchP1At (cs : List Char) : Option (List Char) :=
  (stripPrefixCI "effective date:".data cs).bind fun r =>
  (captureMDY (r.dropWhile pyIsSpace)).map (·.1)

/-- Position matcher for content pattern 2, the parenthesized variant
`\(Effective Date:\s*([A-Za-z]+\s+\d{1,2},\s+\d{4})\)`. -/
def matchP2At (cs : List Char) : Option (List Char) :=
  (stripPrefixCI "(effective date:".data cs).bind fun r =>
  (captureMDY (r.dropWhile pyIsSpace)).bind fun (cap, rest) =>
  match rest with
  | ')' :: _ => some cap
  | _ => none

/-- Position matcher for content pattern 3,
`(?:Updated|Last Updated):\s*([A-Za-z]+\s+\d{4})`: the alternation tries
`Updated` before `Last Updated`. -/
def matchP3At (cs : List Char) : Option (List Char) :=
  (match stripPrefixCI "updated:".data cs with
   | some r => some r
   | none => stripPrefixCI "last updated:".data cs).bind fun r =>
  captureMY (r.dropWhile pyIsSpace)

/-- Position matcher for content pattern 4,
`(?:As of|Valid from|Issued):\s*([A-Za-z]+\s+\d{1,2}?,?\s+\d{4})`. -/
def matchP4At (cs : List Char) : Option (List Char) :=
  (firstSome ["as of:".data, "valid from:".data, "issued:".data]
    (fun p => stripPrefixCI p cs)).bind fun r =>
  captureP4 (r.dropWhile pyIsSpace)

/-- Content pattern 5: the leftmost match of `\b(20\d{2})\b`.  The flag
carries whether the previous character (if any) was a word character, so the
word boundaries of `\b` are decided exactly. -/
def searchYearWB (prevIsWord : Bool) : List Char → Option Nat
  | a :: b :: c :: d :: rest =>
    if !prevIsWord && a = '2' && b = '0' && c.isDigit && d.isDigit &&
       (match rest with
        | [] => true
        | e :: _ => !isWordChar e) then
      some (2000 + 10 * dv c + dv d)
    else searchYearWB (isWordChar a) (b :: c :: d :: rest)
  | _ => none

/-- Content pattern 1 with its `strptime("%b %d, %Y")` parse; a capture whose
parse raises `ValueError` yields `none`, which the chain treats like a failed
search (the source's `except ValueError: pass`). -/
def contentPattern1 (cs : List Char) : Option DateTime :=
  (searchWith matchP1At cs).bind (strptimeMDY monthAbbrevList true)

/-- Content pattern 2 with its `strptime("%b %d, %Y")` parse. -/
def contentPattern2 (cs : List Char) : Option DateTime :=
  (searchWith matchP2At cs).bind (strptimeMDY monthAbbrevList true)

/-- Content pattern 3 with its `strptime("%B %Y")`-then-`strptime("%b %Y")`
parse. -/
def contentPattern3 (cs : List Char) : Option DateTime :=
  (searchWith matchP3At cs).bind fun cap =>
    (strptimeMY monthFullList cap).orElse fun _ => strptimeMY monthAbbrevList cap

/-- Content pattern 4: commas are removed from the capture, the result is
stripped, and the four formats `%B %d %Y`, `%b %d %Y`, `%B %Y`, `%b %Y` are
tried in order. -/
def contentPattern4 (cs : List Char) : Option DateTime :=
  (searchWith matchP4At cs).bind fun cap =>
    let ds := pyStrip (cap.filter (fun c => c ≠ ','))
    firstSome [strptimeMDY monthFullList false, strptimeMDY monthAbbrevList false,
               strptimeMY monthFullList, strptimeMY monthAbbrevList]
      (fun f => f ds)

/-- Content pattern 5: a year `20\d{2}` with word boundaries in the first 200
characters, giving January 1st of that year. -/
def contentPattern5 (cs : List Char) : Option DateTime :=
  (searchYearWB false (cs.take 200)).map fun y => ⟨y, 1, 1, 0, 0, 0⟩

/-- Embedding of `extract_date_from_content` (source lines 87–166): the five
patterns are tried in order; a pattern whose regex matches but whose captured
text fails to parse falls through to the next pattern. -/
def extract_date_from_content (text : String) : Option DateTime :=
  ((((contentPattern1 text.data).orElse fun _ =>
      contentPattern2 text.data).orElse fun _ =>
      contentPattern3 text.data).orElse fun _ =>
      contentPattern4 text.data).orElse fun _ =>
      contentPattern5 text.data

/-! ## `extract_effective_date` and `classify_document` -/

/-- Embedding of `extract_effective_date` (source lines 180–209).  The
filesystem is passed as a model function `fs`: `fs p = some m` means the path
`p` exists and has modification date `m` (so `os.path.exists(p)` is
`(fs p).isSome` and `get_file_modification_date p` returns `m`).  Python's
truthiness test `if filepath and ...` makes the empty-string path skip the
filesystem strategy; on a real filesystem `os.path.exists("")` is false as
well. -/
def extract_effective_date (fs : String → Option DateTime)
    (text filename : String) (filepath : Option String) : DateTime :=
  match extract_date_from_content text with
  | some d => d
  | none =>
    match extract_date_from_filename filename with
    | some d => d
    | none =>
      match filepath with
      | some p =>
        if p ≠ "" then
          match fs p with
          | some m => m
          | none => ⟨1970, 1, 1, 0, 0, 0⟩
        else ⟨1970, 1, 1, 0, 0, 0⟩
      | none => ⟨1970, 1, 1, 0, 0, 0⟩

/-- Embedding of `classify_document` (source lines 33–37): `"policy"` exactly
when the lowered filename contains the substring `policy`. -/
def classify_document (filename : String) : String :=
  if occursIn "policy".data (filename.data.map Char.toLower) then "policy"
  else "noise"

/-! ## Chunks and metadata

`retrieve_chunks` rebuilds plain `Chunk` values from the external index, so
the retrieval-side functions (`filter_noise`, `resolve_policy_conflicts`,
`generate_answer`, `run_pipeline`) operate on chunk values whose metadata is
an association list modelling a Python string dict (first binding wins). -/

/-- Metadata dictionary: string keys to string values. -/
abbrev Metadata := List (String × String)

/-- Python `d.get(k)`: the first binding of `k`, if any. -/
def dictGet (m : Metadata) (k : String) : Option String :=
  (m.find? (fun p => p.1 == k)).map (·.2)

/-- The `Chunk` dataclass of the source, as a value (text plus metadata). -/
structure Chunk where
  text : String
  metadata : Metadata
deriving DecidableEq, Repr

/-! ## Model of `datetime.fromisoformat`

Restricted to the shapes the pipeline writes (`datetime.isoformat()` output
`YYYY-MM-DDTHH:MM:SS` — every pipeline date has zero microseconds — with any
single separator character, seconds optional, as accepted by CPython) and the
plain date `YYYY-MM-DD`; every other string is treated as unparseable. -/

/-- Validated datetime construction (the `datetime` constructor's range
checks). -/
def mkDateTime (y mo d h mi s : Nat) : Option DateTime :=
  if 1 ≤ y && y ≤ 9999 && 1 ≤ mo && mo ≤ 12 && 1 ≤ d && d ≤ daysInMonth y mo
     && h ≤ 23 && mi ≤ 59 && s ≤ 59 then
    some ⟨y, mo, d, h, mi, s⟩
  else none

/-- Model of `datetime.fromisoformat` (see the section comment for the
covered shapes). -/
def fromisoformat (str : String) : Option DateTime :=
  match str.data with
  | [y1, y2, y3, y4, '-', m1, m2, '-', d1, d2] =>
    if y1.isDigit && y2.isDigit && y3.isDigit && y4.isDigit && m1.isDigit &&
       m2.isDigit && d1.isDigit && d2.isDigit then
      mkDateTime (1000 * dv y1 + 100 * dv y2 + 10 * dv y3 + dv y4)
        (10 * dv m1 + dv m2) (10 * dv d1 + dv d2) 0 0 0
    else none
  | y1 :: y2 :: y3 :: y4 :: '-' :: m1 :: m2 :: '-' :: d1 :: d2 :: _ :: h1 :: h2 :: ':' :: i1 :: i2 :: rest =>
    if y1.isDigit && y2.isDigit && y3.isDigit && y4.isDigit && m1.isDigit &&
       m2.isDigit && d1.isDigit && d2.isDigit && h1.isDigit && h2.isDigit &&
       i1.isDigit && i2.isDigit then
      match rest with
      | [] =>
        mkDateTime (1000 * dv y1 + 100 * dv y2 + 10 * dv y3 + dv y4)
          (10 * dv m1 + dv m2) (10 * dv d1 + dv d2) (10 * dv h1 + dv h2)
          (10 * dv i1 + dv i2) 0
      | [':', s1, s2] =>
        if s1.isDigit && s2.isDigit then
          mkDateTime (1000 * dv y1 + 100 * dv y2 + 10 * dv y3 + dv y4)
            (10 * dv m1 + dv m2) (10 * dv d1 + dv d2) (10 * dv h1 + dv h2)
            (10 * dv i1 + dv i2) (10 * dv s1 + dv s2)
        else none
      | _ => none
    else none
  | _ => none

/-! ## `filter_noise` -/

/-- Embedding of `filter_noise` (source lines 357–366): keep exactly the
chunks whose `doc_type` metadata is `"policy"`. -/
def filter_noise (chunks : List Chunk) : List Chunk :=
  chunks.filter fun c => dictGet c.metadata "doc_type" == some "policy"

/-! ## `resolve_policy_conflicts` -/

/-- The candidate-collection loop of `resolve_policy_conflicts` (source lines
373–383): a chunk with a truthy `effective_date` that `fromisoformat`
accepts is paired with its date; a missing, empty or unparseable date is
skipped (the `ValueError` branch logs with the safe `metadata.get`).  The
success trace line reads `chunk.metadata['filename']`, so a dated chunk
without a `filename` key raises `KeyError`, embedded as `none`. -/
def datedScan : List Chunk → Option (List (DateTime × Chunk))
  | [] => some []
  | c :: cs =>
    match dictGet c.metadata "effective_date" with
    | none => datedScan cs
    | some s =>
      if s = "" then datedScan cs
      else
        match fromisoformat s with
        | none => datedScan cs
        | some d =>
          match dictGet c.metadata "filename" with
          | none => none
          | some _ => (datedScan cs).map (fun l => (d, c) :: l)

/-- Insert into a list sorted by strictly descending position of the key:
the element goes after every element with an equal or larger key. -/
def insertDesc (p : DateTime × Chunk) :
    List (DateTime × Chunk) → List (DateTime × Chunk)
  | [] => [p]
  | q :: qs => if q.1.key < p.1.key then p :: q :: qs else q :: insertDesc p qs

/-- Model of `list.sort(key=lambda x: x[0], reverse=True)`: a stable
descending sort by date.  Python's sort is stable, and a stable descending
sort of a list is unique, so this insertion sort (which keeps earlier
elements ahead of later equal-key elements) computes the same list. -/
def sortDesc (l : List (DateTime × Chunk)) : List (DateTime × Chunk) :=
  l.foldl (fun acc p => insertDesc p acc) []

/-- Embedding of `resolve_policy_conflicts` (source lines 370–395): `none`
models an uncaught exception (the `KeyError` of the trace line, or the
`IndexError` of `chunks[0]` on an empty input). -/
def resolve_policy_conflicts (chunks : List Chunk) : Option Chunk :=
  match datedScan chunks with
  | none => none
  | some dated =>
    match dated with
    | [] => chunks.head?
    | _ :: _ => ((sortDesc dated).head?).map (·.2)

/-! ## `generate_answer` -/

/-- The prompt literal of `generate_answer` (source lines 402–422). -/
def build_prompt (policyText query : String) : String :=
  "You are an HR policy assistant.\n\nRules:\n- Use ONLY the policy text below.\n- Prefer the most recent policy.\n- Ignore irrelevant documents.\n- Answer clearly and concisely.\n- Always cite the filename.\n- DO NOT invent source names.\n- The source filename will be provided programmatically.\n\nPolicy Text:\n"
  ++ policyText
  ++ "\n\nQuestion:\n"
  ++ query
  ++ "\n\nAnswer format:\n<answer>\nSources: <filename>\n"

/-- Single-pass embedding of `re.sub(r"Sources:.*", "", response)`: every
occurrence of `Sources:` is deleted together with the rest of its line (`.`
does not match a newline; the newline itself is kept).  The flag is true
while inside a deleted region; deleted regions cannot overlap a newline, and
no match can start at a newline, so the scan is exact. -/
def removeSourcesAux : Bool → List Char → List Char
  | _, [] => []
  | skip, c :: cs =>
    if skip then
      if c = '\n' then c :: removeSourcesAux false cs
      else removeSourcesAux true cs
    else
      if startsWithLit "Sources:".data (c :: cs) then removeSourcesAux true cs
      else c :: removeSourcesAux false cs

/-- The substitution applied to the model response. -/
def removeSources (l : List Char) : List Char :=
  removeSourcesAux false l

/-- Embedding of `generate_answer` (source lines 399–428) with the
language-model collaborator passed as a function from prompt to response
text.  `none` models the `KeyError` of `policy_chunk.metadata['filename']`
when the filename metadata is missing. -/
def generate_answer (llm : String → String) (policy_chunk : Chunk)
    (query : String) : Option String :=
  let response0 := pyStrip (llm (build_prompt policy_chunk.text query)).data
  let response1 := pyStrip (removeSources response0)
  match dictGet policy_chunk.metadata "filename" with
  | none => none
  | some fn => some (String.mk (response1 ++ "\nSources: ".data ++ fn.data))

/-! ## `run_pipeline` -/

/-- Retrieval depth `TOP_K` of the source. -/
def TOP_K : Nat := 4

/-- Outcome of one query: the "no relevant policy documents found" message,
a final answer, or an uncaught exception. -/
inductive Outcome where
  | noRelevantPolicies : Outcome
  | answered : String → Outcome
  | failure : Outcome
deriving DecidableEq, Repr

/-- Embedding of the per-query part of `run_pipeline` (source lines
432–460).  The vector index is the external collaborator `retrieve` (its
build/load from disk is outside the core, see the spec); `retrieve query k`
is the ordered candidate list of `retrieve_chunks(vector_store, query, k)`. -/
def run_pipeline (retrieve : String → Nat → List Chunk)
    (llm : String → String) (query : String) : Outcome :=
  let retrieved := retrieve query TOP_K
  let filtered := filter_noise retrieved
  match filtered with
  | [] => Outcome.noRelevantPolicies
  | _ :: _ =>
    match resolve_policy_conflicts filtered with
    | none => Outcome.failure
    | some c =>
      match generate_answer llm c query with
      | none => Outcome.failure
      | some a => Outcome.answered a

/-! ## `chunk_documents`

Chunking is where the source copies metadata (`doc.metadata.copy()`), so the
embedding makes Python's reference semantics explicit: metadata dicts live
in a heap (a list of dicts, a reference being an index), documents and
chunks hold references, and each emitted chunk allocates a fresh copy of the
source document's dict.  Mutating a dict is `setMeta`. -/

/-- The metadata heap: dict references are indices into `dicts`. -/
structure Heap where
  dicts : List Metadata
deriving DecidableEq, Repr

/-- Dereference a dict (total model of the heap read). -/
def lookupH (h : Heap) (r : Nat) : Metadata :=
  h.dicts.getD r []

/-- Mutate the dict at reference `r` (Python in-place dict update). -/
def setMeta (h : Heap) (r : Nat) (m : Metadata) : Heap :=
  ⟨h.dicts.set r m⟩

/-- The `Document` dataclass with its metadata held by reference. -/
structure DocumentH where
  content : String
  metaRef : Nat
deriving DecidableEq, Repr

/-- The `Chunk` dataclass with its metadata held by reference. -/
structure ChunkH where
  text : String
  metaRef : Nat
deriving DecidableEq, Repr

/-- Python `content.split("\n")`: split at every newline, keeping empty
pieces. -/
def splitLines : List Char → List (List Char)
  | [] => [[]]
  | c :: cs =>
    if c = '\n' then [] :: splitLines cs
    else
      match splitLines cs with
      | [] => [[c]]
      | l :: ls => (c :: l) :: ls

/-- The paragraph list of `chunk_documents`:
`[p.strip() for p in doc.content.split("\n") if p.strip()]`. -/
def paragraphsOf (content : String) : List (List Char) :=
  ((splitLines content.data).map pyStrip).filter (fun p => !p.isEmpty)

/-- The chunk-size threshold `CHUNK_SIZE` of the source. -/
def CHUNK_SIZE : Nat := 500

/-- Emit one chunk: `Chunk(text=buffer.strip(), metadata=doc.metadata.copy())`
— the copy allocates a fresh dict at the end of the heap holding the current
value of the document's dict. -/
def emitChunk (text : List Char) (srcRef : Nat) (h : Heap) : ChunkH × Heap :=
  (⟨String.mk text, h.dicts.length⟩, ⟨h.dicts ++ [lookupH h srcRef]⟩)

/-- The paragraph-accumulation loop of `chunk_documents` for one document:
a paragraph is appended to the buffer (with a separating space) while the
combined length stays at or under `CHUNK_SIZE`; otherwise the stripped
buffer is flushed as a chunk and the paragraph starts a new buffer.  A final
non-empty buffer is flushed at the end. -/
def chunkLoop (srcRef : Nat) (paras : List (List Char)) (buffer : List Char)
    (h : Heap) : List ChunkH × Heap :=
  match paras with
  | [] =>
    if buffer.isEmpty then ([], h)
    else
      let (c, h1) := emitChunk (pyStrip buffer) srcRef h
      ([c], h1)
  | p :: ps =>
    if buffer.length + p.length ≤ CHUNK_SIZE then
      chunkLoop srcRef ps (buffer ++ ' ' :: p) h
    else
      let (c, h1) := emitChunk (pyStrip buffer) srcRef h
      let (cs, h2) := chunkLoop srcRef ps p h1
      (c :: cs, h2)

/-- Embedding of `chunk_documents` (source lines 277–304). -/
def chunk_documents : List DocumentH → Heap → List ChunkH × Heap
  | [], h => ([], h)
  | d :: ds, h =>
    let (cs1, h1) := chunkLoop d.metaRef (paragraphsOf d.content) [] h
    let (cs2, h2) := chunk_documents ds h1
    (cs1 ++ cs2, h2)

/-! ## Claim-side modelling and fixtures

The remaining definitions are not embeddings of the source: they state the
behaviour the spec's claims describe (clearly marked), or are concrete
fixtures used by witnesses. -/

/-- Modelled from the claim (spec section 4.6 wording): delete everything
from the first occurrence of `Sources:` to the end of the text.  The source
instead deletes each occurrence only to the end of its line; this function
exists to compare the two. -/
def truncAtSources : List Char → List Char
  | [] => []
  | c :: cs =>
    if startsWithLit "Sources:".data (c :: cs) then []
    else c :: truncAtSources cs

/-- Modelled from the claim: `generate_answer` as the claim describes it,
differing from the source only in the extent of the deletion. -/
def claim_generate_answer (llm : String → String) (policy_chunk : Chunk)
    (query : String) : Option String :=
  let response0 := pyStrip (llm (build_prompt policy_chunk.text query)).data
  let response1 := pyStrip (truncAtSources response0)
  match dictGet policy_chunk.metadata "filename" with
  | none => none
  | some fn => some (String.mk (response1 ++ "\nSources: ".data ++ fn.data))

/-- One step of the specification-side fold characterising the head of the
stable descending sort: keep the current best unless the new element's key
is strictly larger — i.e. the earliest element attaining the maximal key
wins.  This states the claim's "most recent date, ties to input order". -/
def firstMaxStep (best : Option (DateTime × Chunk)) (q : DateTime × Chunk) :
    Option (DateTime × Chunk) :=
  match best with
  | none => some q
  | some b => if b.1.key < q.1.key then some q else some b

/-- Fixture: a policy chunk dated 2022-01-01. -/
def chunkW1 : Chunk :=
  ⟨"t1", [("filename", "a.txt"), ("doc_type", "policy"),
          ("effective_date", "2022-01-01T00:00:00")]⟩

/-- Fixture: a policy chunk dated 2024-06-01. -/
def chunkW2 : Chunk :=
  ⟨"t2", [("filename", "b.txt"), ("doc_type", "policy"),
          ("effective_date", "2024-06-01T00:00:00")]⟩

/-- Fixture: a policy chunk dated 2023-01-01. -/
def chunkW3 : Chunk :=
  ⟨"t3", [("filename", "c.txt"), ("doc_type", "policy"),
          ("effective_date", "2023-01-01T00:00:00")]⟩

/-- Fixture: the dated-candidate list `datedScan` extracts from the three
chunks above. -/
def datedW : List (DateTime × Chunk) :=
  [(⟨2022, 1, 1, 0, 0, 0⟩, chunkW1), (⟨2024, 6, 1, 0, 0, 0⟩, chunkW2),
   (⟨2023, 1, 1, 0, 0, 0⟩, chunkW3)]

/-- Fixture: a document whose content is one 501-character paragraph, with
its metadata dict at heap reference 0. -/
def docW : DocumentH := ⟨String.mk (List.replicate 501 'z'), 0⟩

/-- Fixture: a one-dict heap holding the document's metadata. -/
def heapW : Heap := ⟨[[("doc_type", "policy")]]⟩

/-! ## Sanity examples

A few concrete evaluations pinning the embedded functions to the behaviour
of the source (each is checked by kernel reduction). -/

theorem classify_document_example :
    classify_document "WFH_Policy_2024.txt" = "policy" ∧
    classify_document "lunch_menu.txt" = "noise" := ⟨rfl, rfl⟩

theorem extract_date_examples :
    extract_date_from_content "Effective Date: Mar 3, 2023" = some ⟨2023, 3, 3, 0, 0, 0⟩ ∧
    extract_date_from_filename "WFH_Policy_2024.txt" = some ⟨2024, 1, 1, 0, 0, 0⟩ ∧
    extract_date_from_filename "archive_1999_report.txt" = none ∧
    fromisoformat "2024-06-01T00:00:00" = some ⟨2024, 6, 1, 0, 0, 0⟩ :=
  ⟨rfl, rfl, rfl, rfl⟩

/-! ## Claim C8: `filter_noise` -/

/-- C8. `filter_noise` returns exactly the chunks whose `doc_type` metadata
equals `"policy"`, in their original relative order (a sublist of the
input), and the kept and dropped counts add up to the input length; the
embedding is a pure function, so the input list and its chunks are
unchanged. -/
theorem filter_noise_spec (chunks : List Chunk) :
    (filter_noise chunks).Sublist chunks ∧
    (∀ c, c ∈ filter_noise chunks ↔
      c ∈ chunks ∧ dictGet c.metadata "doc_type" = some "policy") ∧
    (filter_noise chunks).length
      + (chunks.filter fun c => !(dictGet c.metadata "doc_type" == some "policy")).length
      = chunks.length := by
  refine ⟨List.filter_sublist _, fun c => ?_, ?_⟩
  · simp [filter_noise, List.mem_filter]
  · induction chunks with
    | nil => rfl
    | cons c cs ih =>
      simp only [filter_noise] at ih ⊢
      cases hc : (dictGet c.metadata "doc_type" == some "policy") <;>
        (simp [List.filter_cons, hc, Nat.succ_add, ih]; try omega)

/-! ## Claim C2: the strategy chain of `extract_effective_date` -/

/-- C2. `extract_effective_date` always returns a date: content extraction
is tried first, then filename extraction, then the file's modification
timestamp (only for a supplied, non-empty path that exists — Python's
truthiness makes the empty path skip the strategy, and `os.path.exists("")`
is false anyway), and otherwise the result is January 1, 1970.  The first
strategy that yields a result short-circuits the rest. -/
theorem extract_effective_date_chain (fs : String → Option DateTime)
    (text filename : String) (filepath : Option String) :
    (∀ d, extract_date_from_content text = some d →
      extract_effective_date fs text filename filepath = d) ∧
    (extract_date_from_content text = none →
      ∀ d, extract_date_from_filename filename = some d →
        extract_effective_date fs text filename filepath = d) ∧
    (extract_date_from_content text = none →
      extract_date_from_filename filename = none →
      ∀ p m, filepath = some p → p ≠ "" → fs p = some m →
        extract_effective_date fs text filename filepath = m) ∧
    (extract_date_from_content text = none →
      extract_date_from_filename filename = none →
      (filepath = none ∨ filepath = some "" ∨ ∀ p, filepath = some p → fs p = none) →
      extract_effective_date fs text filename filepath = ⟨1970, 1, 1, 0, 0, 0⟩) := by
  refine ⟨?_, ?_, ?_, ?_⟩
  · intro d h
    simp [extract_effective_date, h]
  · intro h1 d h2
    simp [extract_effective_date, h1, h2]
  · intro h1 h2 p m hp hpe hfs
    subst hp
    simp [extract_effective_date, h1, h2, hpe, hfs]
  · intro h1 h2 h3
    rcases h3 with h3 | h3 | h3
    · subst h3; simp [extract_effective_date, h1, h2]
    · subst h3; simp [extract_effective_date, h1, h2]
    · cases hp : filepath with
      | none => simp [extract_effective_date, h1, h2]
      | some p =>
        by_cases hpe : p = ""
        · subst hpe; simp [extract_effective_date, h1, h2]
        · simp [extract_effective_date, h1, h2, hpe, h3 p hp]

/-- Witness for C2: a text and filename with no date anywhere and no
filesystem entry fall through to the epoch default. -/
theorem extract_effective_date_chain_witness :
    extract_effective_date (fun _ => none) "alpha beta" "nodate.txt" none
      = ⟨1970, 1, 1, 0, 0, 0⟩ :=
  (extract_effective_date_chain (fun _ => none) "alpha beta" "nodate.txt" none).2.2.2
    rfl rfl (Or.inl rfl)

/-! ## Claim C9: empty filtered candidate set -/

/-- C9. When the filtered candidate set of a query is empty, `run_pipeline`
reports the "no relevant policy documents" outcome (no exception is
modelled: the outcome is not `failure`), and the result does not depend on
the language model at all — no `generate_answer` call occurs. -/
theorem run_pipeline_empty_filtered (retrieve : String → Nat → List Chunk)
    (llm : String → String) (query : String)
    (h : filter_noise (retrieve query TOP_K) = []) :
    run_pipeline retrieve llm query = Outcome.noRelevantPolicies ∧
    ∀ llm2, run_pipeline retrieve llm2 query = run_pipeline retrieve llm query := by
  constructor
  · simp [run_pipeline, h]
  · intro llm2; simp [run_pipeline, h]

/-- Witness for C9: a retrieval returning only noise chunks yields the
no-relevant-documents outcome. -/
theorem run_pipeline_empty_filtered_witness :
    run_pipeline (fun _ _ => [⟨"menu", [("doc_type", "noise")]⟩])
      (fun _ => "resp") "query" = Outcome.noRelevantPolicies :=
  (run_pipeline_empty_filtered (fun _ _ => [⟨"menu", [("doc_type", "noise")]⟩])
    (fun _ => "resp") "query" rfl).1

/-! ## Claim C5: bare-year before full-date in filename extraction -/

/-- Counterexample for C5 as stated: `archive_1999_policy_2024_01_15.txt`
contains the full date `2024_01_15` with year 2024 in `[2000, 2099]`, yet
the function returns the full date 2024-01-15, not January 1 of that year —
because the bare-year pattern only ever examines the leftmost four-digit
run (`1999`, out of range), after which the full-date pattern wins. -/
theorem filename_bare_year_counterexample :
    extract_date_from_filename "archive_1999_policy_2024_01_15.txt"
      = some ⟨2024, 1, 15, 0, 0, 0⟩ ∧
    some (⟨2024, 1, 15, 0, 0, 0⟩ : DateTime) ≠ some ⟨2024, 1, 1, 0, 0, 0⟩ :=
  ⟨rfl, by decide⟩

/-- C5 (amended).  The bare-year pattern is evaluated before the full
`YYYY[-_]MM[-_]DD` pattern, but it only considers the leftmost four-digit
run of the filename: whenever that leftmost run is a year in `[2000, 2099]`
(as in `policy_2024_01_15.txt`), the result is January 1 of that year and
the full-date pattern is never consulted. -/
theorem filename_bare_year_preempts (filename : String) (y : Nat)
    (h1 : search4Digits filename.data = some y)
    (h2 : 2000 ≤ y) (h3 : y ≤ 2099) :
    extract_date_from_filename filename = some ⟨y, 1, 1, 0, 0, 0⟩ := by
  simp [extract_date_from_filename, h1, h2, h3]

/-- Witness for the amended C5: the spec's own example filename. -/
theorem filename_bare_year_preempts_witness :
    extract_date_from_filename "policy_2024_01_15.txt" = some ⟨2024, 1, 1, 0, 0, 0⟩ :=
  filename_bare_year_preempts "policy_2024_01_15.txt" 2024 rfl (by decide) (by decide)

/-! ## Claim C4: `Effective Date: Mar 3, 2023` in the content -/

/-- Counterexample for C4 as stated: a text that contains the substring
`Effective Date: Mar 3, 2023` but whose leftmost `Effective Date:` match is
a different, parseable date.  The regex search takes the leftmost match
only, so extraction returns January 1, 2024 — not March 3, 2023. -/
theorem effective_date_substring_counterexample :
    occursIn "Effective Date: Mar 3, 2023".data
      "Effective Date: Jan 1, 2024. Effective Date: Mar 3, 2023".data = true ∧
    extract_date_from_content
      "Effective Date: Jan 1, 2024. Effective Date: Mar 3, 2023"
      = some ⟨2024, 1, 1, 0, 0, 0⟩ ∧
    some (⟨2024, 1, 1, 0, 0, 0⟩ : DateTime) ≠ some ⟨2023, 3, 3, 0, 0, 0⟩ :=
  ⟨rfl, rfl, by decide⟩

/-- C4 (amended).  For every text whose leftmost match of content pattern 1
captures exactly `Mar 3, 2023`, content extraction returns March 3, 2023 —
and therefore so does `extract_effective_date`, for every filename, filepath
and filesystem. -/
theorem effective_date_first_match (text : String)
    (h : searchWith matchP1At text.data = some "Mar 3, 2023".data) :
    extract_date_from_content text = some ⟨2023, 3, 3, 0, 0, 0⟩ ∧
    ∀ (fs : String → Option DateTime) (filename : String) (filepath : Option String),
      extract_effective_date fs text filename filepath = ⟨2023, 3, 3, 0, 0, 0⟩ := by
  have hc : extract_date_from_content text = some ⟨2023, 3, 3, 0, 0, 0⟩ := by
    unfold extract_date_from_content contentPattern1
    rw [h]
    rfl
  exact ⟨hc, fun fs filename filepath => by simp [extract_effective_date, hc]⟩

/-- Witness for the amended C4: another year in the text and in the filename
does not displace the matched effective date. -/
theorem effective_date_first_match_witness :
    extract_date_from_content
      "Policy (Effective Date: Mar 3, 2023) supersedes the 2019 rules"
      = some ⟨2023, 3, 3, 0, 0, 0⟩ ∧
    extract_effective_date (fun _ => none)
      "Policy (Effective Date: Mar 3, 2023) supersedes the 2019 rules"
      "policy_2030.txt" none = ⟨2023, 3, 3, 0, 0, 0⟩ := by
  have h := effective_date_first_match
    "Policy (Effective Date: Mar 3, 2023) supersedes the 2019 rules" rfl
  exact ⟨h.1, h.2 (fun _ => none) "policy_2030.txt" none⟩

/-! ## Claim C6: day-less dates and content pattern 4 -/

/-- C6 concerns a bug in the source: the regex of content pattern 4 requires
at least one day digit (`\d{1,2}?,?\s+` cannot match between the month name
and the year when no day is present), so the day-less `Valid from: March
2024` never reaches the month-only format variants (which are dead code for
this regex); the extractor instead falls through to the bare-year pattern 5
and returns January 1, 2024 rather than March 1, 2024. -/
theorem pattern4_dayless_behaviour :
    searchWith matchP4At "Valid from: March 2024".data = none ∧
    extract_date_from_content "Valid from: March 2024" = some ⟨2024, 1, 1, 0, 0, 0⟩ ∧
    (⟨2024, 1, 1, 0, 0, 0⟩ : DateTime) ≠ ⟨2024, 3, 1, 0, 0, 0⟩ :=
  ⟨rfl, rfl, by decide⟩

/-! ## Stripping lemmas

`str.strip()` is idempotent; the paragraphs built by `chunk_documents` are
therefore fixed points of `pyStrip`. -/

/-- Dropping while `q` holds is idempotent. -/
theorem dropWhile_idem (q : Char → Bool) (l : List Char) :
    (l.dropWhile q).dropWhile q = l.dropWhile q := by
  induction l with
  | nil => rfl
  | cons c cs ih =>
    cases hc : q c <;> simp [List.dropWhile_cons, hc, ih]

/-- The head of a `dropWhile q` result does not satisfy `q`. -/
theorem head_dropWhile_false (q : Char → Bool) (l : List Char) (c : Char)
    (h : (l.dropWhile q).head? = some c) : q c = false := by
  induction l with
  | nil => simp at h
  | cons c' cs ih =>
    rw [List.dropWhile_cons] at h
    by_cases hc : q c' = true
    · rw [if_pos hc] at h; exact ih h
    · rw [if_neg hc] at h
      simp at h
      subst h
      simpa using hc

/-- Stripping is idempotent. -/
theorem pyStrip_idem (l : List Char) : pyStrip (pyStrip l) = pyStrip l := by
  have hrev : (pyStrip l).reverse.dropWhile pyIsSpace = (pyStrip l).reverse := by
    unfold pyStrip
    rw [List.reverse_reverse]
    exact dropWhile_idem pyIsSpace _
  have hhead : (pyStrip l).dropWhile pyIsSpace = pyStrip l := by
    cases hX : pyStrip l with
    | nil => rfl
    | cons c cs =>
      have hc : pyIsSpace c = false := by
        have h1 : (pyStrip l).head? = some c := by rw [hX]; rfl
        have h2 : (pyStrip l).head?
            = ((l.dropWhile pyIsSpace).reverse.dropWhile pyIsSpace).getLast? := by
          unfold pyStrip
          exact List.head?_reverse _
        have hBne : (l.dropWhile pyIsSpace).reverse.dropWhile pyIsSpace ≠ [] := by
          intro hB
          rw [h2, hB] at h1
          simp at h1
        have h3 : ((l.dropWhile pyIsSpace).reverse.dropWhile pyIsSpace).getLast?
            = (l.dropWhile pyIsSpace).reverse.getLast? := by
          conv_rhs =>
            rw [← List.takeWhile_append_dropWhile pyIsSpace (l.dropWhile pyIsSpace).reverse]
          rw [List.getLast?_append_of_ne_nil _ hBne]
        have h4 : (l.dropWhile pyIsSpace).reverse.getLast?
            = (l.dropWhile pyIsSpace).head? := by
          rw [List.getLast?_reverse]
        have h5 : (l.dropWhile pyIsSpace).head? = some c := by
          rw [← h4, ← h3, ← h2, h1]
        exact head_dropWhile_false pyIsSpace l c h5
      rw [List.dropWhile_cons, hc]
      simp
  calc pyStrip (pyStrip l)
      = (((pyStrip l).dropWhile pyIsSpace).reverse.dropWhile pyIsSpace).reverse := rfl
    _ = ((pyStrip l).reverse.dropWhile pyIsSpace).reverse := by rw [hhead]
    _ = (pyStrip l).reverse.reverse := by rw [hrev]
    _ = pyStrip l := List.reverse_reverse _

/-- Every paragraph produced by `paragraphsOf` is already stripped. -/
theorem paragraphsOf_stripped (content : String) (p : List Char)
    (h : p ∈ paragraphsOf content) : pyStrip p = p := by
  unfold paragraphsOf at h
  have h2 := List.mem_of_mem_filter h
  rcases List.mem_map.mp h2 with ⟨q, _, rfl⟩
  exact pyStrip_idem q

/-! ## Claim C10: the empty chunk flushed by the overflow branch -/

/-- When the buffer is already over the threshold, the loop flushes it
immediately (whatever the remaining paragraphs are), emitting a chunk whose
text is the stripped buffer. -/
theorem chunkLoop_overflow (r : Nat) (paras : List (List Char))
    (buffer : List Char) (h : Heap) (hb : CHUNK_SIZE < buffer.length) :
    ∃ cs h2, chunkLoop r paras buffer h
      = (⟨String.mk (pyStrip buffer), h.dicts.length⟩ :: cs, h2) := by
  cases paras with
  | nil =>
    have hne : buffer.isEmpty = false := by
      cases buffer with
      | nil => simp [CHUNK_SIZE] at hb
      | cons c cs => rfl
    exact ⟨[], ⟨h.dicts ++ [lookupH h r]⟩, by simp [chunkLoop, hne, emitChunk]⟩
  | cons p ps =>
    have hgt : ¬(buffer.length + p.length ≤ CHUNK_SIZE) := by omega
    refine ⟨(chunkLoop r ps p ⟨h.dicts ++ [lookupH h r]⟩).1,
            (chunkLoop r ps p ⟨h.dicts ++ [lookupH h r]⟩).2, ?_⟩
    simp [chunkLoop, hgt, emitChunk]

/-- C10.  If the first paragraph of a document is longer than the 500
character threshold, the first chunk emitted by `chunk_documents` has empty
text (the stripped empty buffer flushed by the overflow branch), and the
chunk holding the oversize paragraph itself comes right after it — so
non-empty chunk text is not an invariant. -/
theorem chunk_documents_empty_text (content : String) (r : Nat) (h : Heap)
    (p : List Char) (ps : List (List Char))
    (hpara : paragraphsOf content = p :: ps)
    (hlong : CHUNK_SIZE < p.length) :
    ∃ rest, (chunk_documents [⟨content, r⟩] h).1.map ChunkH.text
        = "" :: String.mk p :: rest := by
  have hstr : pyStrip p = p :=
    paragraphsOf_stripped content p (by rw [hpara]; exact List.mem_cons_self p ps)
  have hlong' : 500 < p.length := hlong
  have hgt : ¬(List.length ([] : List Char) + p.length ≤ CHUNK_SIZE) := by
    show ¬(0 + p.length ≤ 500)
    omega
  rcases chunkLoop_overflow r ps p ⟨h.dicts ++ [lookupH h r]⟩ hlong with ⟨cs, h2, hloop⟩
  have h1 : (chunkLoop r ps p ⟨h.dicts ++ [lookupH h r]⟩).1
      = ⟨String.mk (pyStrip p), (⟨h.dicts ++ [lookupH h r]⟩ : Heap).dicts.length⟩ :: cs := by
    rw [hloop]
  refine ⟨cs.map ChunkH.text, ?_⟩
  have hcd : (chunk_documents [⟨content, r⟩] h).1
      = (⟨String.mk (pyStrip ([] : List Char)), h.dicts.length⟩
          :: (chunkLoop r ps p ⟨h.dicts ++ [lookupH h r]⟩).1) ++ [] := by
    simp only [chunk_documents, hpara, chunkLoop, emitChunk, if_neg hgt]
  rw [hcd, h1]
  simp [hstr]
  rfl

set_option maxRecDepth 10000 in
/-- Witness for C10: a single 501-character paragraph yields an empty-text
first chunk followed by the paragraph's own chunk. -/
theorem chunk_documents_empty_text_witness :
    ∃ rest, (chunk_documents [⟨String.mk (List.replicate 501 'z'), 0⟩]
        ⟨[[("doc_type", "policy")]]⟩).1.map ChunkH.text
      = "" :: String.mk (List.replicate 501 'z') :: rest :=
  chunk_documents_empty_text (String.mk (List.replicate 501 'z')) 0
    ⟨[[("doc_type", "policy")]]⟩ (List.replicate 501 'z') [] rfl (by decide)

/-! ## Claim C3: the citation handling of `generate_answer`

The claim asserts that the substitution deletes from the first `Sources:`
occurrence to the end of the whole text; the source's `re.sub(r"Sources:.*",
"", ...)` deletes every occurrence only to the end of its line.  The
claim's behaviour is modelled by `claim_generate_answer` above. -/

/-- Counterexample for C3 as stated: on a model response with text after the
self-generated citation line, the source keeps that text (it deletes only to
the end of the line), while the claim's from-first-occurrence-to-end
deletion would drop it; the two outputs differ. -/
theorem generate_answer_deletion_counterexample :
    generate_answer (fun _ => "A\nSources: fake.txt\nB")
      ⟨"p", [("filename", "real.txt")]⟩ "q" = some "A\n\nB\nSources: real.txt" ∧
    claim_generate_answer (fun _ => "A\nSources: fake.txt\nB")
      ⟨"p", [("filename", "real.txt")]⟩ "q" = some "A\nSources: real.txt" ∧
    ("A\n\nB\nSources: real.txt" : String) ≠ "A\nSources: real.txt" :=
  ⟨rfl, rfl, by decide⟩

/-- Skip mode of the substitution scanner either exhausts the input or
resumes normal scanning at a kept newline. -/
theorem skip_shape (cs : List Char) :
    removeSourcesAux true cs = [] ∨
    ∃ rest : List Char, rest.length ≤ cs.length ∧
      removeSourcesAux true cs = '\n' :: removeSourcesAux false rest := by
  induction cs with
  | nil => exact Or.inl rfl
  | cons c cs ih =>
    by_cases hc : c = '\n'
    · subst hc
      exact Or.inr ⟨cs, Nat.le_succ _, by simp [removeSourcesAux]⟩
    · have he : removeSourcesAux true (c :: cs) = removeSourcesAux true cs := by
        simp [removeSourcesAux, hc]
      rcases ih with h | ⟨rest, hle, heq⟩
      · exact Or.inl (he.trans h)
      · exact Or.inr ⟨rest, Nat.le_trans hle (Nat.le_succ _), he.trans heq⟩

/-- A newline-free pattern found at the front of the substitution's output
was already at the front of its input. -/
theorem startsWith_removeSources (l : List Char) :
    ∀ pat : List Char, pat ≠ [] → '\n' ∉ pat →
    startsWithLit pat (removeSourcesAux false l) = true →
    startsWithLit pat l = true := by
  induction l with
  | nil =>
    intro pat hne _ h
    cases pat with
    | nil => exact absurd rfl hne
    | cons p ps => simp [removeSourcesAux, startsWithLit] at h
  | cons c cs ih =>
    intro pat hne hnl h
    by_cases hm : startsWithLit "Sources:".data (c :: cs) = true
    · have he : removeSourcesAux false (c :: cs) = removeSourcesAux true cs := by
        simp [removeSourcesAux, hm]
      rw [he] at h
      rcases skip_shape cs with hs | ⟨rest, _, hs⟩
      · rw [hs] at h
        cases pat with
        | nil => exact absurd rfl hne
        | cons p ps => simp [startsWithLit] at h
      · rw [hs] at h
        cases pat with
        | nil => exact absurd rfl hne
        | cons p ps =>
          simp [startsWithLit] at h
          apply absurd _ hnl
          rw [← h.1]
          exact List.mem_cons_self _ _
    · have he : removeSourcesAux false (c :: cs) = c :: removeSourcesAux false cs := by
        simp [removeSourcesAux, hm]
      rw [he] at h
      cases pat with
      | nil => exact absurd rfl hne
      | cons p ps =>
        simp only [startsWithLit, Bool.and_eq_true, decide_eq_true_eq] at h ⊢
        refine ⟨h.1, ?_⟩
        by_cases hps : ps = []
        · subst hps; rfl
        · exact ih ps hps (fun hmem => hnl (List.mem_cons_of_mem _ hmem)) h.2

/-- The substitution's output contains no `Sources:` occurrence at all (any
occurrence fully inside a kept region would have been detected by the scan,
and deleted regions always end at a newline, which cannot sit inside the
pattern). -/
theorem occursIn_removeSources (n : Nat) : ∀ l : List Char, l.length ≤ n →
    occursIn "Sources:".data (removeSourcesAux false l) = false := by
  induction n with
  | zero =>
    intro l hl
    have hnil : l = [] := List.length_eq_zero.mp (Nat.le_zero.mp hl)
    subst hnil
    rfl
  | succ n ih =>
    intro l hl
    cases l with
    | nil => rfl
    | cons c cs =>
      by_cases hm : startsWithLit "Sources:".data (c :: cs) = true
      · have he : removeSourcesAux false (c :: cs) = removeSourcesAux true cs := by
          simp [removeSourcesAux, hm]
        rw [he]
        rcases skip_shape cs with hs | ⟨rest, hle, hs⟩
        · rw [hs]; rfl
        · rw [hs]
          have h1 : startsWithLit "Sources:".data
              ('\n' :: removeSourcesAux false rest) = false := by
            simp [startsWithLit]
          have h2 := ih rest (Nat.le_trans hle (Nat.le_of_succ_le_succ hl))
          simp only [occursIn, h1, h2, Bool.false_or]
      · have he : removeSourcesAux false (c :: cs) = c :: removeSourcesAux false cs := by
          simp [removeSourcesAux, hm]
        rw [he]
        have h2 := ih cs (Nat.le_of_succ_le_succ hl)
        simp only [occursIn, h2, Bool.or_false]
        by_contra hx
        have hx' : startsWithLit "Sources:".data
            (c :: removeSourcesAux false cs) = true := by
          revert hx
          cases startsWithLit "Sources:".data (c :: removeSourcesAux false cs) <;> simp
        have hd : "Sources:".data = 'S' :: "ources:".data := rfl
        rw [hd] at hx'
        simp only [startsWithLit, Bool.and_eq_true, decide_eq_true_eq] at hx'
        have h3 : startsWithLit "ources:".data cs = true :=
          startsWith_removeSources cs "ources:".data (by decide) (by decide) hx'.2
        apply hm
        rw [hd]
        simp only [startsWithLit, Bool.and_eq_true, decide_eq_true_eq]
        exact ⟨hx'.1, h3⟩

/-- A pattern at the front of a list is at the front of any extension. -/
theorem startsWithLit_append (pat : List Char) :
    ∀ s t : List Char, startsWithLit pat s = true →
    startsWithLit pat (s ++ t) = true := by
  induction pat with
  | nil => intro s t _; rfl
  | cons p ps ih =>
    intro s t h
    cases s with
    | nil => simp [startsWithLit] at h
    | cons c cs =>
      simp only [startsWithLit, Bool.and_eq_true, decide_eq_true_eq,
        List.cons_append] at h ⊢
      exact ⟨h.1, ih cs t h.2⟩

/-- The empty pattern occurs in everything. -/
theorem occursIn_nil_pat (t : List Char) : occursIn ([] : List Char) t = true := by
  cases t <;> simp [occursIn, startsWithLit]

/-- An occurrence survives extending the list on the right. -/
theorem occursIn_append_left (pat : List Char) :
    ∀ s t : List Char, occursIn pat s = true → occursIn pat (s ++ t) = true := by
  intro s
  induction s with
  | nil =>
    intro t h
    cases pat with
    | nil => exact occursIn_nil_pat t
    | cons p ps => simp [occursIn, startsWithLit] at h
  | cons c cs ih =>
    intro t h
    simp only [occursIn, Bool.or_eq_true, List.cons_append] at h ⊢
    rcases h with h | h
    · exact Or.inl (startsWithLit_append pat (c :: cs) t h)
    · exact Or.inr (ih t h)

/-- An occurrence survives extending the list on the left. -/
theorem occursIn_append_right (pat : List Char) :
    ∀ s t : List Char, occursIn pat t = true → occursIn pat (s ++ t) = true := by
  intro s
  induction s with
  | nil => intro t h; exact h
  | cons c cs ih =>
    intro t h
    simp only [occursIn, Bool.or_eq_true, List.cons_append]
    exact Or.inr (ih t h)

/-- An occurrence in a contiguous segment is an occurrence in the whole. -/
theorem occursIn_of_infix (pat x a b : List Char) (h : occursIn pat x = true) :
    occursIn pat (a ++ x ++ b) = true := by
  rw [List.append_assoc]
  exact occursIn_append_right pat a (x ++ b) (occursIn_append_left pat x b h)

/-- Stripping returns a contiguous segment of the input. -/
theorem pyStrip_infix (l : List Char) : ∃ a b, l = a ++ pyStrip l ++ b := by
  refine ⟨l.takeWhile pyIsSpace,
    ((l.dropWhile pyIsSpace).reverse.takeWhile pyIsSpace).reverse, ?_⟩
  have h1 : (l.dropWhile pyIsSpace).reverse
      = (l.dropWhile pyIsSpace).reverse.takeWhile pyIsSpace
        ++ (l.dropWhile pyIsSpace).reverse.dropWhile pyIsSpace :=
    (List.takeWhile_append_dropWhile _ _).symm
  have h2 := congrArg List.reverse h1
  rw [List.reverse_reverse, List.reverse_append] at h2
  have h2' : l.dropWhile pyIsSpace
      = pyStrip l ++ ((l.dropWhile pyIsSpace).reverse.takeWhile pyIsSpace).reverse := h2
  calc l = l.takeWhile pyIsSpace ++ l.dropWhile pyIsSpace :=
        (List.takeWhile_append_dropWhile _ _).symm
    _ = l.takeWhile pyIsSpace
        ++ (pyStrip l ++ ((l.dropWhile pyIsSpace).reverse.takeWhile pyIsSpace).reverse) := by
        rw [← h2']
    _ = l.takeWhile pyIsSpace ++ pyStrip l
        ++ ((l.dropWhile pyIsSpace).reverse.takeWhile pyIsSpace).reverse := by
        rw [List.append_assoc]

/-- No occurrence appears after stripping if none appeared before. -/
theorem occursIn_pyStrip_false (pat l : List Char)
    (h : occursIn pat l = false) : occursIn pat (pyStrip l) = false := by
  cases hx : occursIn pat (pyStrip l) with
  | false => rfl
  | true =>
    rcases pyStrip_infix l with ⟨a, b, hl⟩
    have hall := occursIn_of_infix pat (pyStrip l) a b hx
    rw [← hl] at hall
    rw [hall] at h
    cases h

/-- C3 (amended).  For every model response and every resolved chunk whose
metadata carries a filename (the source raises `KeyError` otherwise),
`generate_answer` deletes each occurrence of `Sources:` together with the
rest of its line (not to the end of the whole text), strips whitespace, and
appends its own citation line — so the returned answer ends with a
`Sources:` line naming exactly the resolved chunk's filename, and the part
before that line contains no `Sources:` occurrence at all. -/
theorem generate_answer_sources (llm : String → String) (chunk : Chunk)
    (query fn : String) (h : dictGet chunk.metadata "filename" = some fn) :
    ∃ pre : List Char,
      generate_answer llm chunk query
        = some (String.mk (pre ++ ("\nSources: " ++ fn).data)) ∧
      pre = pyStrip (removeSources
        (pyStrip (llm (build_prompt chunk.text query)).data)) ∧
      occursIn "Sources:".data pre = false := by
  refine ⟨pyStrip (removeSources
    (pyStrip (llm (build_prompt chunk.text query)).data)), ?_, rfl, ?_⟩
  · have hd : ("\nSources: " ++ fn).data = "\nSources: ".data ++ fn.data :=
      String.data_append _ _
    simp [generate_answer, h, hd]
  · exact occursIn_pyStrip_false _ _
      (occursIn_removeSources _ _ (Nat.le_refl _))

/-- Witness for the amended C3: a concrete model response with a fake
citation yields an answer carrying only the system citation. -/
theorem generate_answer_sources_witness :
    ∃ pre : List Char,
      generate_answer (fun _ => "X\nSources: no.txt") ⟨"p", [("filename", "f.txt")]⟩ "q"
        = some (String.mk (pre ++ ("\nSources: " ++ "f.txt").data)) ∧
      pre = pyStrip (removeSources (pyStrip ((fun (_ : String) => "X\nSources: no.txt")
        (build_prompt (Chunk.text ⟨"p", [("filename", "f.txt")]⟩) "q")).data)) ∧
      occursIn "Sources:".data pre = false :=
  generate_answer_sources (fun _ => "X\nSources: no.txt")
    ⟨"p", [("filename", "f.txt")]⟩ "q" "f.txt" rfl

/-! ## Claim C1: `resolve_policy_conflicts` -/

/-- The head after one insertion is computed by `firstMaxStep`. -/
theorem head_insertDesc (p : DateTime × Chunk) (acc : List (DateTime × Chunk)) :
    (insertDesc p acc).head? = firstMaxStep acc.head? p := by
  cases acc with
  | nil => rfl
  | cons q qs =>
    by_cases h : q.1.key < p.1.key <;> simp [insertDesc, firstMaxStep, h]

/-- The head of the insertion sort is the fold of `firstMaxStep`. -/
theorem head_sortDesc (l : List (DateTime × Chunk)) :
    ∀ acc, (l.foldl (fun a p => insertDesc p a) acc).head?
      = l.foldl firstMaxStep acc.head? := by
  induction l with
  | nil => intro acc; rfl
  | cons p ps ih =>
    intro acc
    simp only [List.foldl_cons]
    rw [ih (insertDesc p acc), head_insertDesc]

/-- The `firstMaxStep` fold computes the earliest element attaining the
maximal key: it is in the list, no element beats it, and every strictly
earlier element is strictly below it. -/
theorem firstMax_spec (l : List (DateTime × Chunk)) (hne : l ≠ []) :
    ∃ (i : Nat) (pr : DateTime × Chunk), l[i]? = some pr ∧ l.foldl firstMaxStep none = some pr ∧
      (∀ qr ∈ l, qr.1.key ≤ pr.1.key) ∧
      (∀ j qr, j < i → l[j]? = some qr → qr.1.key < pr.1.key) := by
  induction l using List.reverseRecOn with
  | nil => exact absurd rfl hne
  | append_singleton l x ih =>
    by_cases hl : l = []
    · subst hl
      refine ⟨0, x, rfl, rfl, ?_, ?_⟩
      · intro qr hqr
        rw [List.nil_append, List.mem_singleton] at hqr
        subst hqr
        exact Nat.le_refl _
      · intro j qr hj _
        exact absurd hj (Nat.not_lt_zero j)
    · rcases ih hl with ⟨i, pr, hget, hfold, hmax, hstrict⟩
      rw [List.foldl_append, List.foldl_cons, List.foldl_nil, hfold]
      by_cases hx : pr.1.key < x.1.key
      · refine ⟨l.length, x, List.getElem?_concat_length l x, ?_, ?_, ?_⟩
        · simp [firstMaxStep, hx]
        · intro qr hqr
          rcases List.mem_append.mp hqr with hq | hq
          · exact Nat.le_of_lt (Nat.lt_of_le_of_lt (hmax qr hq) hx)
          · rw [List.mem_singleton] at hq
            subst hq
            exact Nat.le_refl _
        · intro j qr hj hget'
          rw [List.getElem?_append, if_pos hj] at hget'
          rcases List.getElem?_eq_some.mp hget' with ⟨hjl, heq⟩
          have hmem : qr ∈ l := heq ▸ List.getElem_mem hjl
          exact Nat.lt_of_le_of_lt (hmax qr hmem) hx
      · have hil : i < l.length := (List.getElem?_eq_some.mp hget).1
        refine ⟨i, pr, ?_, ?_, ?_, ?_⟩
        · rw [List.getElem?_append, if_pos hil]
          exact hget
        · simp [firstMaxStep, hx]
        · intro qr hqr
          rcases List.mem_append.mp hqr with hq | hq
          · exact hmax qr hq
          · rw [List.mem_singleton] at hq
            subst hq
            exact Nat.le_of_not_lt hx
        · intro j qr hj hget'
          have hjl : j < l.length := Nat.lt_trans hj hil
          rw [List.getElem?_append, if_pos hjl] at hget'
          exact hstrict j qr hj hget'

/-- Counterexample for C1 as stated: a non-empty chunk list on which
`resolve_policy_conflicts` returns no chunk at all — the chunk's
`effective_date` parses, so the success trace line reads
`chunk.metadata['filename']` and raises `KeyError` (embedded as `none`)
instead of returning the most recent chunk. -/
theorem resolve_policy_conflicts_keyerror :
    resolve_policy_conflicts [⟨"t", [("effective_date", "2024-06-01T00:00:00")]⟩] = none ∧
    ([⟨"t", [("effective_date", "2024-06-01T00:00:00")]⟩] : List Chunk) ≠ [] ∧
    (none : Option Chunk) ≠ some ⟨"t", [("effective_date", "2024-06-01T00:00:00")]⟩ :=
  ⟨rfl, by simp, by simp⟩

/-- C1 (amended).  For every non-empty chunk list on which the candidate
scan completes (that is, every chunk with a truthy, parseable
`effective_date` also carries `filename` metadata — otherwise the trace
line raises `KeyError`): if no chunk has a parseable date the first input
chunk is returned, and otherwise the returned chunk is the one whose date
is maximal, the earliest such in input order (chunks with missing, empty or
unparseable dates are excluded from the ranking by `datedScan`). -/
theorem resolve_policy_conflicts_spec (chunks : List Chunk) (hne : chunks ≠ []) :
    (datedScan chunks = some [] →
      ∃ c0, chunks.head? = some c0 ∧ resolve_policy_conflicts chunks = some c0) ∧
    (∀ dated, datedScan chunks = some dated → dated ≠ [] →
      ∃ (i : Nat) (pr : DateTime × Chunk), dated[i]? = some pr ∧ resolve_policy_conflicts chunks = some pr.2 ∧
        (∀ qr ∈ dated, qr.1.key ≤ pr.1.key) ∧
        (∀ j qr, j < i → dated[j]? = some qr → qr.1.key < pr.1.key)) := by
  constructor
  · intro h
    cases chunks with
    | nil => exact absurd rfl hne
    | cons c cs => exact ⟨c, rfl, by simp [resolve_policy_conflicts, h]⟩
  · intro dated hscan hdne
    rcases firstMax_spec dated hdne with ⟨i, pr, hget, hfold, hmax, hstrict⟩
    have hhead : (sortDesc dated).head? = some pr := by
      unfold sortDesc
      rw [head_sortDesc dated []]
      exact hfold
    refine ⟨i, pr, hget, ?_, hmax, hstrict⟩
    cases dated with
    | nil => exact absurd rfl hdne
    | cons d ds => simp [resolve_policy_conflicts, hscan, hhead]

/-- Witness for C1: the spec's three-date test set, whose dated scan is
`datedW`; the conclusion picks the 2024-06-01 chunk. -/
theorem resolve_policy_conflicts_spec_witness :
    ∃ (i : Nat) (pr : DateTime × Chunk), datedW[i]? = some pr ∧
      resolve_policy_conflicts [chunkW1, chunkW2, chunkW3] = some pr.2 ∧
      (∀ qr ∈ datedW, qr.1.key ≤ pr.1.key) ∧
      (∀ j qr, j < i → datedW[j]? = some qr → qr.1.key < pr.1.key) :=
  (resolve_policy_conflicts_spec [chunkW1, chunkW2, chunkW3]
    (by simp)).2 datedW rfl (by simp [datedW])

/-- Sanity example: on the three-date test set the resolver returns the
2024-06-01 chunk. -/
theorem resolve_policy_conflicts_example :
    resolve_policy_conflicts [chunkW1, chunkW2, chunkW3] = some chunkW2 := rfl

/-! ## Claim C7: independent metadata copies

Every chunk emitted by `chunk_documents` allocates a fresh dict at the end
of the heap, so chunk metadata references are exactly the consecutive fresh
indices `range'` starting at the old heap size: pairwise distinct and
distinct from every pre-existing (document) reference.  Mutating one
chunk's dict therefore never changes a sibling chunk's dict or a parent
document's dict. -/

/-- Heap invariant of the per-document loop: the heap only grows by one
fresh dict per emitted chunk, and the emitted chunks reference exactly the
fresh indices in order. -/
theorem chunkLoop_refs (r : Nat) : ∀ (paras : List (List Char))
    (buffer : List Char) (h : Heap),
    ∃ ext : List Metadata, ext.length = (chunkLoop r paras buffer h).1.length ∧
      (chunkLoop r paras buffer h).2.dicts = h.dicts ++ ext ∧
      (chunkLoop r paras buffer h).1.map ChunkH.metaRef
        = List.range' h.dicts.length (chunkLoop r paras buffer h).1.length := by
  intro paras
  induction paras with
  | nil =>
    intro buffer h
    by_cases hb : buffer.isEmpty
    · refine ⟨[], ?_, ?_, ?_⟩ <;> simp [chunkLoop, hb]
    · simp only [Bool.not_eq_true] at hb
      refine ⟨[lookupH h r], ?_, ?_, ?_⟩ <;> simp [chunkLoop, hb, emitChunk, List.range']
  | cons p ps ih =>
    intro buffer h
    by_cases hfit : buffer.length + p.length ≤ CHUNK_SIZE
    · have he : chunkLoop r (p :: ps) buffer h
          = chunkLoop r ps (buffer ++ ' ' :: p) h := by
        simp [chunkLoop, hfit]
      rw [he]
      exact ih _ h
    · have he : chunkLoop r (p :: ps) buffer h
          = (⟨String.mk (pyStrip buffer), h.dicts.length⟩
              :: (chunkLoop r ps p ⟨h.dicts ++ [lookupH h r]⟩).1,
             (chunkLoop r ps p ⟨h.dicts ++ [lookupH h r]⟩).2) := by
        simp [chunkLoop, hfit, emitChunk]
      rcases ih p ⟨h.dicts ++ [lookupH h r]⟩ with ⟨ext, hlen, hdicts, hmap⟩
      refine ⟨lookupH h r :: ext, ?_, ?_, ?_⟩
      · rw [he]
        simpa using hlen
      · rw [he]
        simp only at hdicts
        rw [hdicts]
        simp
      · rw [he]
        simp only [List.map_cons, List.length_cons]
        rw [hmap]
        have hl1 : (⟨h.dicts ++ [lookupH h r]⟩ : Heap).dicts.length
            = h.dicts.length + 1 := by simp
        rw [hl1, List.range'_succ]

/-- Heap invariant of `chunk_documents`: fresh consecutive references for
all chunks of all documents. -/
theorem chunk_documents_refs : ∀ (docs : List DocumentH) (h : Heap),
    ∃ ext : List Metadata, ext.length = (chunk_documents docs h).1.length ∧
      (chunk_documents docs h).2.dicts = h.dicts ++ ext ∧
      (chunk_documents docs h).1.map ChunkH.metaRef
        = List.range' h.dicts.length (chunk_documents docs h).1.length := by
  intro docs
  induction docs with
  | nil =>
    intro h
    exact ⟨[], rfl, by simp [chunk_documents], rfl⟩
  | cons d ds ih =>
    intro h
    rcases chunkLoop_refs d.metaRef (paragraphsOf d.content) [] h
      with ⟨e1, hl1, hd1, hm1⟩
    rcases ih (chunkLoop d.metaRef (paragraphsOf d.content) [] h).2
      with ⟨e2, hl2, hd2, hm2⟩
    have he : chunk_documents (d :: ds) h
        = ((chunkLoop d.metaRef (paragraphsOf d.content) [] h).1
            ++ (chunk_documents ds (chunkLoop d.metaRef (paragraphsOf d.content) [] h).2).1,
           (chunk_documents ds (chunkLoop d.metaRef (paragraphsOf d.content) [] h).2).2) := by
      simp [chunk_documents]
    refine ⟨e1 ++ e2, ?_, ?_, ?_⟩
    · rw [he]
      simp [hl1, hl2]
    · rw [he]
      simp only
      rw [hd2, hd1, List.append_assoc]
    · rw [he]
      simp only [List.map_append, List.length_append]
      rw [hm1, hm2, hd1]
      have hstart : (h.dicts ++ e1).length = h.dicts.length + 1 *
          (chunkLoop d.metaRef (paragraphsOf d.content) [] h).1.length := by
        simp [hl1]
      rw [hstart, List.range'_append]
      rw [Nat.add_comm ((chunk_documents ds
        (chunkLoop d.metaRef (paragraphsOf d.content) [] h).2).1.length) _]

/-- C7. Every chunk produced by `chunk_documents` owns an independent copy
of its document's metadata: chunk metadata references are pairwise
distinct, mutating one chunk's dict leaves every sibling chunk's dict
unchanged, and (for well-formed inputs whose document references point into
the heap) it leaves every parent document's dict unchanged as well. -/
theorem chunk_metadata_independent (docs : List DocumentH) (h : Heap)
    (hvalid : ∀ d ∈ docs, d.metaRef < h.dicts.length) :
    (∀ (i j : Nat) (ci cj : ChunkH), (chunk_documents docs h).1[i]? = some ci →
      (chunk_documents docs h).1[j]? = some cj → i ≠ j →
      ci.metaRef ≠ cj.metaRef) ∧
    (∀ (i j : Nat) (ci cj : ChunkH) (m : Metadata),
      (chunk_documents docs h).1[i]? = some ci →
      (chunk_documents docs h).1[j]? = some cj → i ≠ j →
      lookupH (setMeta (chunk_documents docs h).2 ci.metaRef m) cj.metaRef
        = lookupH (chunk_documents docs h).2 cj.metaRef) ∧
    (∀ (i : Nat) (ci : ChunkH) (m : Metadata) (d : DocumentH),
      (chunk_documents docs h).1[i]? = some ci → d ∈ docs →
      lookupH (setMeta (chunk_documents docs h).2 ci.metaRef m) d.metaRef
        = lookupH (chunk_documents docs h).2 d.metaRef) := by
  rcases chunk_documents_refs docs h with ⟨ext, hlen, hdicts, hmap⟩
  have href : ∀ (i : Nat) (ci : ChunkH), (chunk_documents docs h).1[i]? = some ci →
      ci.metaRef = h.dicts.length + i := by
    intro i ci hget
    have hi : i < (chunk_documents docs h).1.length :=
      (List.getElem?_eq_some.mp hget).1
    have hmapi : ((chunk_documents docs h).1.map ChunkH.metaRef)[i]?
        = some ci.metaRef := by
      rw [List.getElem?_map, hget]
      rfl
    rw [hmap, List.getElem?_range' _ _ hi] at hmapi
    have := Option.some.inj hmapi
    omega
  refine ⟨?_, ?_, ?_⟩
  · intro i j ci cj hi hj hij
    have h1 := href i ci hi
    have h2 := href j cj hj
    omega
  · intro i j ci cj m hi hj hij
    have h1 := href i ci hi
    have h2 := href j cj hj
    have hne : ci.metaRef ≠ cj.metaRef := by omega
    unfold lookupH setMeta
    simp only
    rw [List.getD_eq_getElem?_getD, List.getD_eq_getElem?_getD,
      List.getElem?_set_ne hne]
  · intro i ci m d hi hd
    have h1 := href i ci hi
    have hdref := hvalid d hd
    have hne : ci.metaRef ≠ d.metaRef := by omega
    unfold lookupH setMeta
    simp only
    rw [List.getD_eq_getElem?_getD, List.getD_eq_getElem?_getD,
      List.getElem?_set_ne hne]

set_option maxRecDepth 10000 in
/-- Witness for C7: the two chunks of the fixture document get references 1
and 2; mutating chunk 0's dict leaves chunk 1's dict unchanged. -/
theorem chunk_metadata_independent_witness :
    lookupH (setMeta (chunk_documents [docW] heapW).2 1 [("doc_type", "edited")]) 2
      = lookupH (chunk_documents [docW] heapW).2 2 := by
  have hv : ∀ d ∈ [docW], d.metaRef < heapW.dicts.length := by
    intro d hd
    rw [List.mem_singleton] at hd
    subst hd
    decide
  exact (chunk_metadata_independent [docW] heapW hv).2.1 0 1 ⟨"", 1⟩
    ⟨String.mk (List.replicate 501 'z'), 2⟩ [("doc_type", "edited")]
    rfl rfl (by decide)

end RagPipeline
